import Mathlib

/-!
Verification of the go-pm zero-downtime process supervisor.

The development shallowly embeds the Go sources (pm.go; restarter.go is a
near-duplicate and agrees with pm.go on every modelled aspect):
* a faithful executable fragment of Go's encoding/json package, as used by
  ForkChild (json.Marshal of the Listener struct) and ImportListener
  (json.Unmarshal into the Listener struct);
* the listener acquisition operations ImportListener, CreateListener and
  CreateOrImportListener, with the OS interactions (environment lookup,
  net.FileListener, net.Listen) as explicit oracle parameters;
* ForkChild, returning the spawn request handed to os.StartProcess;
* the body of the Run control loop as a step function from a received
  event to the performed action trace, the successor state and the loop
  outcome (continue vs. return).
-/

namespace GoPm

/-! ## JSON text fragment (Go encoding/json)

Characters are Lean chars (Go works on UTF-8 bytes; all inputs in play are
valid Unicode).  The parser mirrors the fragment of Go's JSON scanner and
decoder relevant to the Listener struct: whitespace, strings with escapes
(including surrogate-pair and unpaired-surrogate handling), numbers with
the leading-zero restriction, objects, arrays, true/false/null, and the
requirement that nothing but whitespace follows the top-level value. -/

/-- JSON whitespace per the JSON grammar used by Go's scanner. -/
def isWs (c : Char) : Bool :=
  c = ' ' || c = '\t' || c = '\n' || c = '\r'

/-- Drop leading JSON whitespace. -/
def skipWs : List Char → List Char
  | [] => []
  | c :: r => if isWs c then skipWs r else c :: r

/-- ASCII decimal digit test. -/
def isDig (c : Char) : Bool :=
  48 ≤ c.toNat && c.toNat ≤ 57

/-- Numeric value of a decimal digit character. -/
def dval (c : Char) : Nat := c.toNat - 48

/-- Value of a hexadecimal digit character, if it is one. -/
def hexVal (c : Char) : Option Nat :=
  if 48 ≤ c.toNat ∧ c.toNat ≤ 57 then some (c.toNat - 48)
  else if 97 ≤ c.toNat ∧ c.toNat ≤ 102 then some (c.toNat - 87)
  else if 65 ≤ c.toNat ∧ c.toNat ≤ 70 then some (c.toNat - 55)
  else none

/-- JSON values, as produced by the scanner.  A number records whether its
literal was in pure integer form (optional minus then digits), since Go's
decoder only accepts such literals into an int-typed struct field. -/
inductive Json where
  | null
  | bool (b : Bool)
  | num (v : Int) (isInt : Bool)
  | str (s : String)
  | arr (xs : List Json)
  | obj (fields : List (String × Json))

/-- Value of a four-hex-digit group, as Go's getu4. -/
def hex4 (a b c d : Char) : Option Nat :=
  match hexVal a, hexVal b, hexVal c, hexVal d with
  | some va, some vb, some vc, some vd =>
    some (((va * 16 + vb) * 16 + vc) * 16 + vd)
  | _, _, _, _ => none

/-- Lookahead for a low-surrogate escape immediately following a
high-surrogate one (Go's second getu4 plus utf16.DecodeRune validity). -/
def pLowSurr : List Char → Option (Nat × List Char)
  | e1 :: e2 :: g1 :: g2 :: g3 :: g4 :: r =>
    if e1 = '\\' ∧ e2 = 'u' then
      match hex4 g1 g2 g3 g4 with
      | some m => if 0xDC00 ≤ m ∧ m < 0xE000 then some (m, r) else none
      | none => none
    else none
  | _ => none

/-- Fuel-indexed string-body parser: input starts right after the opening
quote and the result is the decoded character list plus the input
remaining after the closing quote.  Mirrors Go's unquote: `\u` escapes
combine surrogate pairs, an unpaired surrogate half decodes to U+FFFD
consuming only its own escape, and raw control characters are rejected.
One unit of fuel is spent per decoded character, so fuel exceeding the
input length always suffices. -/
def pStrAux : Nat → List Char → Option (List Char × List Char)
  | 0, _ => none
  | _ + 1, [] => none
  | fuel + 1, c :: rest =>
    if c = '"' then some ([], rest)
    else if c = '\\' then
      match rest with
      | [] => none
      | e :: r =>
        if e = '"' then (pStrAux fuel r).map (fun p => ('"' :: p.1, p.2))
        else if e = '\\' then (pStrAux fuel r).map (fun p => ('\\' :: p.1, p.2))
        else if e = '/' then (pStrAux fuel r).map (fun p => ('/' :: p.1, p.2))
        else if e = 'b' then (pStrAux fuel r).map (fun p => (Char.ofNat 8 :: p.1, p.2))
        else if e = 'f' then (pStrAux fuel r).map (fun p => (Char.ofNat 12 :: p.1, p.2))
        else if e = 'n' then (pStrAux fuel r).map (fun p => ('\n' :: p.1, p.2))
        else if e = 'r' then (pStrAux fuel r).map (fun p => ('\r' :: p.1, p.2))
        else if e = 't' then (pStrAux fuel r).map (fun p => ('\t' :: p.1, p.2))
        else if e = 'u' then
          match r with
          | h1 :: h2 :: h3 :: h4 :: r4 =>
            match hex4 h1 h2 h3 h4 with
            | none => none
            | some n =>
              if 0xD800 ≤ n ∧ n < 0xE000 then
                match pLowSurr r4 with
                | some (m, r5) =>
                  if n < 0xDC00 then
                    (pStrAux fuel r5).map (fun p =>
                      (Char.ofNat (0x10000 + (n - 0xD800) * 0x400 + (m - 0xDC00)) :: p.1, p.2))
                  else (pStrAux fuel r4).map (fun p => (Char.ofNat 0xFFFD :: p.1, p.2))
                | none => (pStrAux fuel r4).map (fun p => (Char.ofNat 0xFFFD :: p.1, p.2))
              else (pStrAux fuel r4).map (fun p => (Char.ofNat n :: p.1, p.2))
          | _ => none
        else none
    else if c.toNat < 0x20 then none
    else (pStrAux fuel rest).map (fun p => (c :: p.1, p.2))

/-- String-body parser with always-sufficient fuel. -/
def pStr (cs : List Char) : Option (List Char × List Char) :=
  pStrAux (cs.length + 1) cs

/-- Consume a run of decimal digits, accumulating their value. -/
def pDigits (acc : Nat) : List Char → Nat × List Char
  | [] => (acc, [])
  | c :: rest =>
    if isDig c then pDigits (10 * acc + dval c) rest else (acc, c :: rest)

/-- Does the input start with a decimal digit? -/
def digitHead : List Char → Bool
  | [] => false
  | c :: _ => isDig c

/-- Consume the exponent digits of a number literal (after e or E). -/
def pExp (neg : Bool) : List Char → Option (Json × List Char)
  | [] => none
  | c :: r =>
    if c = '+' ∨ c = '-' then
      match r with
      | [] => none
      | c2 :: r2 =>
        if isDig c2 then
          let p := pDigits (dval c2) r2
          some (Json.num (if neg then 0 else 0) false, p.2)
        else none
    else if isDig c then
      let p := pDigits (dval c) r
      some (Json.num 0 false, p.2)
    else none

/-- After the integer part of a number literal: a fraction or exponent makes
the literal non-integral (Go then refuses to unmarshal it into an int
field); otherwise the literal is a pure integer. -/
def pAfterInt (neg : Bool) (v : Nat) : List Char → Option (Json × List Char)
  | [] => some (Json.num (if neg then -(v : Int) else (v : Int)) true, [])
  | c :: r =>
    if c = '.' then
      match r with
      | [] => none
      | c2 :: r2 =>
        if isDig c2 then
          let p := pDigits (dval c2) r2
          match p.2 with
          | [] => some (Json.num 0 false, [])
          | c3 :: r3 =>
            if c3 = 'e' ∨ c3 = 'E' then pExp neg r3
            else some (Json.num 0 false, c3 :: r3)
        else none
    else if c = 'e' ∨ c = 'E' then pExp neg r
    else some (Json.num (if neg then -(v : Int) else (v : Int)) true, c :: r)

/-- Digits of a number literal after the optional minus sign.  Enforces
JSON's ban on leading zeros. -/
def pNumBody (neg : Bool) : List Char → Option (Json × List Char)
  | [] => none
  | c :: r =>
    if isDig c then
      if c = '0' ∧ digitHead r then none
      else
        let p := pDigits (dval c) r
        pAfterInt neg p.1 p.2
    else none

/-- Number-literal parser. -/
def pNum : List Char → Option (Json × List Char)
  | [] => none
  | c :: r => if c = '-' then pNumBody true r else pNumBody false (c :: r)

mutual

/-- Value parser (fuel-indexed to make the mutual recursion structural). -/
def pVal : Nat → List Char → Option (Json × List Char)
  | 0, _ => none
  | fuel + 1, cs =>
    match skipWs cs with
    | [] => none
    | c :: r =>
      if c = '"' then
        (pStr r).map (fun p => (Json.str (String.mk p.1), p.2))
      else if c = '\x7b' then
        match skipWs r with
        | [] => none
        | c2 :: r2 =>
          if c2 = '\x7d' then some (Json.obj [], r2)
          else (pMembers fuel (c2 :: r2)).map (fun p => (Json.obj p.1, p.2))
      else if c = '[' then
        match skipWs r with
        | [] => none
        | c2 :: r2 =>
          if c2 = ']' then some (Json.arr [], r2)
          else (pElems fuel (c2 :: r2)).map (fun p => (Json.arr p.1, p.2))
      else if c = 't' then
        match r with
        | 'r' :: 'u' :: 'e' :: r2 => some (Json.bool true, r2)
        | _ => none
      else if c = 'f' then
        match r with
        | 'a' :: 'l' :: 's' :: 'e' :: r2 => some (Json.bool false, r2)
        | _ => none
      else if c = 'n' then
        match r with
        | 'u' :: 'l' :: 'l' :: r2 => some (Json.null, r2)
        | _ => none
      else if c = '-' ∨ isDig c then pNum (c :: r)
      else none

/-- Object-member parser: input starts after the opening brace (non-empty
object) or after a comma; it ends at the closing brace. -/
def pMembers : Nat → List Char → Option (List (String × Json) × List Char)
  | 0, _ => none
  | fuel + 1, cs =>
    match skipWs cs with
    | '"' :: r =>
      match pStr r with
      | some (k, rest) =>
        match skipWs rest with
        | ':' :: r2 =>
          match pVal fuel r2 with
          | some (v, rest2) =>
            match skipWs rest2 with
            | ',' :: r3 =>
              (pMembers fuel r3).map (fun p => ((String.mk k, v) :: p.1, p.2))
            | '\x7d' :: r3 => some ([(String.mk k, v)], r3)
            | _ => none
          | none => none
        | _ => none
      | none => none
    | _ => none

/-- Array-element parser: input starts after the opening bracket (non-empty
array) or after a comma; it ends at the closing bracket. -/
def pElems : Nat → List Char → Option (List Json × List Char)
  | 0, _ => none
  | fuel + 1, cs =>
    match pVal fuel cs with
    | some (v, rest) =>
      match skipWs rest with
      | ',' :: r2 => (pElems fuel r2).map (fun p => (v :: p.1, p.2))
      | ']' :: r2 => some ([v], r2)
      | _ => none
    | none => none

end

/-- Top-level JSON parse: one value, then nothing but whitespace (as Go's
json.Unmarshal requires). -/
def parseJson (s : String) : Option Json :=
  match pVal (s.length + 1) s.data with
  | some (j, rest) => if (skipWs rest).isEmpty then some j else none
  | none => none

/-! ## JSON marshalling (Go encoding/json, default encoder options) -/

/-- Lowercase hexadecimal digit character for a value below 16. -/
def hexDigit (n : Nat) : Char :=
  if n < 10 then Char.ofNat (48 + n) else Char.ofNat (87 + n)

/-- Decimal digit character. -/
def digitChar (n : Nat) : Char := Char.ofNat (48 + n)

/-- Decimal digits of a natural number, most significant first
(fuel-driven accumulator so that the definition reduces in the kernel). -/
def natCharsAux : Nat → Nat → List Char → List Char
  | 0, _, acc => acc
  | fuel + 1, n, acc =>
    let acc1 := digitChar (n % 10) :: acc
    if n < 10 then acc1 else natCharsAux fuel (n / 10) acc1

/-- Decimal digits of a natural number, most significant first. -/
def natChars (n : Nat) : List Char := natCharsAux (n + 1) n []

/-- Decimal literal of an integer, as strconv.AppendInt emits it. -/
def encInt (n : Int) : List Char :=
  if n < 0 then '-' :: natChars n.natAbs else natChars n.toNat

/-- Go's JSON encoding of one character of a string: quote, backslash and
control characters are escaped, and so are the HTML-sensitive characters
and the line/paragraph separators (the encoder's defaults). -/
def escChar (c : Char) : List Char :=
  if c = '"' then ['\\', '"']
  else if c = '\\' then ['\\', '\\']
  else if c = '\n' then ['\\', 'n']
  else if c = '\r' then ['\\', 'r']
  else if c = '\t' then ['\\', 't']
  else if c.toNat < 0x20 ∨ c = '<' ∨ c = '>' ∨ c = '&' then
    ['\\', 'u', '0', '0', hexDigit (c.toNat / 16), hexDigit (c.toNat % 16)]
  else if c.toNat = 0x2028 ∨ c.toNat = 0x2029 then
    ['\\', 'u', '2', '0', '2', hexDigit (c.toNat % 16)]
  else [c]

/-- Escaped body of a string literal, including the closing quote. -/
def escBody : List Char → List Char
  | [] => ['"']
  | c :: cs => escChar c ++ escBody cs

/-- Full JSON string literal for a Lean string. -/
def escStr (s : String) : List Char := '"' :: escBody s.data

/-! ## The Listener struct and its codec (pm.go lines 36-40)

Go declaration:
  type Listener struct \x7b
      Address  string `json:"address"`
      FD       int    `json:"fd"`
      Filename string `json:"filename"`
  \x7d
-/

structure Listener where
  Address : String
  FD : Int
  Filename : String
  deriving DecidableEq, Repr

/-- The zero value of the Listener struct. -/
def Listener.zero : Listener := ⟨"", 0, ""⟩

/-- ASCII lowercasing, for Go's case-insensitive JSON key matching. -/
def lowerA (c : Char) : Char :=
  if 65 ≤ c.toNat ∧ c.toNat ≤ 90 then Char.ofNat (c.toNat + 32) else c

/-- Go's JSON field-name match (case folding). -/
def keyEq (a b : String) : Bool :=
  a.data.map lowerA = b.data.map lowerA

/-- Store one decoded object member into the struct, as Go's decoder does:
an unknown key is ignored, null leaves the field untouched, a
wrongly-typed value is an unmarshalling error, and the int field only
accepts a literal in pure integer form. -/
def applyField (l : Listener) (k : String) (v : Json) : Except String Listener :=
  if keyEq k "address" then
    match v with
    | Json.str s => Except.ok { l with Address := s }
    | Json.null => Except.ok l
    | _ => Except.error "json: cannot unmarshal value into field address of type string"
  else if keyEq k "fd" then
    match v with
    | Json.num n true => Except.ok { l with FD := n }
    | Json.null => Except.ok l
    | _ => Except.error "json: cannot unmarshal value into field fd of type int"
  else if keyEq k "filename" then
    match v with
    | Json.str s => Except.ok { l with Filename := s }
    | Json.null => Except.ok l
    | _ => Except.error "json: cannot unmarshal value into field filename of type string"
  else Except.ok l

/-- Apply the decoded object members in order (later duplicates win). -/
def applyFields (l : Listener) : List (String × Json) → Except String Listener
  | [] => Except.ok l
  | (k, v) :: rest =>
    match applyField l k v with
    | Except.ok l2 => applyFields l2 rest
    | Except.error m => Except.error m

/-- json.Unmarshal of a parsed value into the Listener struct: null is a
no-op on the zero value, an object fills fields (missing fields keep their
zero values), anything else is a type error. -/
def unmarshalListener : Json → Except String Listener
  | Json.null => Except.ok Listener.zero
  | Json.obj fs => applyFields Listener.zero fs
  | _ => Except.error "json: cannot unmarshal value into Go value of type Listener"

/-- json.Unmarshal([]byte(text), &l) for the Listener struct: parse the
text as JSON (failure is a syntax — MalformedDescriptor — error), then
fill the struct. -/
def decodeListener (s : String) : Except String Listener :=
  match parseJson s with
  | none => Except.error "json: syntax error"
  | some j => unmarshalListener j

/-- json.Marshal of the Listener struct: the fields in declaration order
with their tag names. -/
def encodeListener (l : Listener) : String :=
  String.mk
    ('\x7b' :: escStr "address" ++ ':' :: escStr l.Address
      ++ ',' :: escStr "fd" ++ ':' :: encInt l.FD
      ++ ',' :: escStr "filename" ++ ':' :: escStr l.Filename ++ ['\x7d'])

/-! ## Listener acquisition (pm.go lines 59-122)

The OS interactions are explicit parameters: the value of the LISTENER
environment variable (os.Getenv returns the empty string when the
variable is unset), the net.FileListener reconstruction outcome, and the
net.Listen bind outcome.  A handle abstracts a live net.Listener. -/

/-- Abstract net.Listener handle. -/
abbrev Handle := Nat

/-- pm.go line 19: the default bind address. -/
def DefaultAddress : String := ":8080"

/-- The address-defaulting step repeated at the top of the operations:
if p.Address == "" then p.Address = DefaultAddress. -/
def effAddr (a : String) : String :=
  if a = "" then DefaultAddress else a

/-- The distinguishable outcomes of ImportListener.  `panicked` is the
runtime panic raised when the listenerFile == nil branch evaluates
err.Error() on a nil error value. -/
inductive ImportResult where
  | ok (h : Handle)
  | err (m : String)
  | panicked
  deriving DecidableEq, Repr

/-- ProcessManager.ImportListener (pm.go lines 59-91).  `env` is the value
of the LISTENER environment variable; `fileListener` is the outcome of
net.FileListener on the reconstructed *os.File (fd, name).  On a 64-bit
platform os.NewFile yields nil exactly when the descriptor number is
negative; on that branch the code formats err.Error() although err — the
json.Unmarshal error — is nil at that point, which is a nil-interface
method call, i.e. a panic. -/
def ImportListener (address : String) (env : String)
    (fileListener : Int → String → Except String Handle) : ImportResult :=
  if env = "" then
    ImportResult.err "unable to find LISTENER environment variable"
  else
    match decodeListener env with
    | Except.error m => ImportResult.err m
    | Except.ok l =>
      let address := effAddr address
      if l.Address ≠ address then
        ImportResult.err ("unable to find listener for " ++ address)
      else if l.FD < 0 then
        ImportResult.panicked
      else
        match fileListener l.FD l.Filename with
        | Except.error m => ImportResult.err m
        | Except.ok h => ImportResult.ok h

/-- ProcessManager.CreateListener (pm.go lines 93-103): bind a fresh TCP
socket on the (defaulted) configured address; `bind` is the outcome of
net.Listen "tcp" at a given address. -/
def CreateListener (address : String)
    (bind : String → Except String Handle) : Except String Handle :=
  bind (effAddr address)

/-- ProcessManager.CreateOrImportListener (pm.go lines 105-121): try the
import; on any import error fall through to a fresh bind.  The result is
the listener installed in p.NetListener.  An import panic propagates. -/
def CreateOrImportListener (address : String) (env : String)
    (fileListener : Int → String → Except String Handle)
    (bind : String → Except String Handle) : ImportResult :=
  match ImportListener address env fileListener with
  | ImportResult.ok h => ImportResult.ok h
  | ImportResult.panicked => ImportResult.panicked
  | ImportResult.err _ =>
    match CreateListener address bind with
    | Except.ok h => ImportResult.ok h
    | Except.error m => ImportResult.err m

/-! ## ForkChild (pm.go lines 137-185) -/

/-- An *os.File, as far as ForkChild observes it: its name. -/
structure OsFile where
  name : String
  deriving DecidableEq, Repr

/-- The argument record handed to os.StartProcess. -/
structure SpawnRequest where
  path : String
  args : List String
  dir : String
  env : List String
  files : List OsFile
  deriving DecidableEq, Repr

/-- The process-global inputs ForkChild consumes: the
GetListenerFile outcome, the stdio files, os.Environ(), os.Executable(),
os.Args, filepath.Dir and the os.StartProcess outcome. -/
structure ForkWorld where
  listenerFile : Except String OsFile
  stdin : OsFile
  stdout : OsFile
  stderr : OsFile
  environ : List String
  executable : Except String String
  args : List String
  dirOf : String → String
  startProcess : SpawnRequest → Except String Nat

/-- ProcessManager.ForkChild: build the descriptor for the listener file
at the fixed slot 3, marshal it, assemble the child's file table and
environment, resolve the executable, and spawn.  On success the returned
pair is the child pid together with the spawn request that was handed to
os.StartProcess. -/
def ForkChild (address : String) (w : ForkWorld) :
    Except String (Nat × SpawnRequest) :=
  match w.listenerFile with
  | Except.error m => Except.error m
  | Except.ok lnFile =>
    let address := effAddr address
    let l : Listener := { Address := address, FD := 3, Filename := lnFile.name }
    let listenerEnv := encodeListener l
    let files := [w.stdin, w.stdout, w.stderr, lnFile]
    let environment := w.environ ++ ["LISTENER=" ++ listenerEnv]
    match w.executable with
    | Except.error m => Except.error m
    | Except.ok execName =>
      let req : SpawnRequest :=
        { path := execName, args := w.args, dir := w.dirOf execName,
          env := environment, files := files }
      match w.startProcess req with
      | Except.error m => Except.error m
      | Except.ok pid => Except.ok (pid, req)

/-! ## The Run control loop (pm.go lines 187-263)

The loop body is modelled as a step function: given the event received by
the select statement, it yields the trace of performed actions, the
successor supervisor state and whether the loop continues or returns.
The per-iteration context bundles the subordinate's WaitTime, the
ForkChild inputs and the Server.Shutdown outcome. -/

/-- The signals the loop is subscribed to (signal.Notify, pm.go line 191). -/
inductive Sig where
  | hup
  | usr2
  | intr
  | quit
  deriving DecidableEq, Repr

/-- One event received by the select statement: an OS signal, a value from
the subordinate's error channel (nil modelled as none), a value from its
done channel, or no channel ready (the default branch). -/
inductive Event where
  | signal (s : Sig)
  | subErr (e : Option String)
  | subDone
  | tick
  deriving DecidableEq, Repr

/-- The externally visible actions a loop iteration can perform, in
order: sleeping for the subordinate's wait time, attempting ForkChild,
sleeping 100ms in the default branch, and Server.Shutdown with its
timeout in seconds. -/
inductive Action where
  | sleepWait (w : Nat)
  | forkAttempt
  | pollSleep
  | shutdown (timeoutSec : Nat)
  deriving DecidableEq, Repr

/-- The mutable supervisor state the loop touches: the p.Sub reference
(an opaque identifier, none when cleared). -/
structure LoopState where
  sub : Option Nat
  deriving DecidableEq, Repr

/-- Loop outcome of one iteration: keep looping, or return from Run with
Server.Shutdown's result (none for a nil error). -/
inductive Outcome where
  | next
  | ret (e : Option String)
  deriving DecidableEq, Repr

/-- Result of one loop iteration. -/
structure StepRes where
  acts : List Action
  state : LoopState
  out : Outcome
  deriving DecidableEq, Repr

/-- Per-iteration context: p.Address, the ForkChild inputs, the
subordinate's WaitTime() and the Server.Shutdown outcome. -/
structure RunCtx where
  address : String
  world : ForkWorld
  waitTime : Nat
  shutdownRes : Option String

/-- Did the ForkChild call in this iteration fail? -/
def forkFails (c : RunCtx) : Bool :=
  match ForkChild c.address c.world with
  | Except.error _ => true
  | Except.ok _ => false

/-- One iteration of the for/select loop in ProcessManager.Run.  Direct
transcription of pm.go lines 193-261: SIGHUP sleeps WaitTime, forks,
continues on fork failure, otherwise clears p.Sub and returns
Server.Shutdown's result; SIGUSR2 sleeps, forks and continues either way;
SIGINT/SIGQUIT return Server.Shutdown's result; a non-nil subordinate
error behaves like SIGHUP except that p.Sub is not cleared; a nil error
is a no-op; a done signal returns Server.Shutdown's result; the default
branch sleeps 100ms. -/
def runStep (c : RunCtx) (st : LoopState) : Event → StepRes
  | Event.signal Sig.hup =>
    if forkFails c then
      { acts := [Action.sleepWait c.waitTime, Action.forkAttempt],
        state := st, out := Outcome.next }
    else
      { acts := [Action.sleepWait c.waitTime, Action.forkAttempt, Action.shutdown 5],
        state := { st with sub := none }, out := Outcome.ret c.shutdownRes }
  | Event.signal Sig.usr2 =>
    if forkFails c then
      { acts := [Action.sleepWait c.waitTime, Action.forkAttempt],
        state := st, out := Outcome.next }
    else
      { acts := [Action.sleepWait c.waitTime, Action.forkAttempt],
        state := st, out := Outcome.next }
  | Event.signal Sig.intr =>
    { acts := [Action.shutdown 5], state := st, out := Outcome.ret c.shutdownRes }
  | Event.signal Sig.quit =>
    { acts := [Action.shutdown 5], state := st, out := Outcome.ret c.shutdownRes }
  | Event.subErr none =>
    { acts := [], state := st, out := Outcome.next }
  | Event.subErr (some _) =>
    if forkFails c then
      { acts := [Action.sleepWait c.waitTime, Action.forkAttempt],
        state := st, out := Outcome.next }
    else
      { acts := [Action.sleepWait c.waitTime, Action.forkAttempt, Action.shutdown 5],
        state := st, out := Outcome.ret c.shutdownRes }
  | Event.subDone =>
    { acts := [Action.shutdown 5], state := st, out := Outcome.ret c.shutdownRes }
  | Event.tick =>
    { acts := [Action.pollSleep], state := st, out := Outcome.next }

/-! ## Proof infrastructure: characters and digit strings -/

theorem toNat_ofNat_small (n : Nat) (h : n < 0xD800) : (Char.ofNat n).toNat = n := by
  have hv : n < 55296 ∨ 57343 < n ∧ n < 1114112 := Or.inl h
  simp only [Char.ofNat, hv, dite_true, dif_pos]
  simp [Char.ofNatAux, Char.toNat, UInt32.toNat]

theorem char_eq_iff_toNat (a b : Char) : a = b ↔ a.toNat = b.toNat := by
  constructor
  · intro h; rw [h]
  · intro h
    have h2 : Char.ofNat a.toNat = Char.ofNat b.toNat := by rw [h]
    rwa [Char.ofNat_toNat, Char.ofNat_toNat] at h2

theorem toNat_digitChar (d : Nat) (h : d < 10) : (digitChar d).toNat = 48 + d :=
  toNat_ofNat_small _ (by omega)

theorem digitChar_eq_iff (d e : Nat) (hd : d < 10) (he : e < 10) :
    digitChar d = digitChar e ↔ d = e := by
  rw [char_eq_iff_toNat, toNat_digitChar d hd, toNat_digitChar e he]
  omega

theorem isWs_digitChar (d : Nat) (h : d < 10) : isWs (digitChar d) = false := by
  have ht := toNat_digitChar d h
  simp only [isWs, Bool.or_eq_false_iff]
  refine ⟨⟨⟨?_, ?_⟩, ?_⟩, ?_⟩ <;>
    · simp only [decide_eq_false_iff_not]
      intro hc
      rw [char_eq_iff_toNat] at hc
      simp [ht] at hc
      omega

theorem isDig_digitChar (d : Nat) (h : d < 10) : isDig (digitChar d) = true := by
  have ht := toNat_digitChar d h
  simp [isDig, ht]
  omega

theorem dval_digitChar (d : Nat) (h : d < 10) : dval (digitChar d) = d := by
  simp [dval, toNat_digitChar d h]

theorem skipWs_cons (c : Char) (t : List Char) (h : isWs c = false) :
    skipWs (c :: t) = c :: t := by
  simp [skipWs, h]

/-- Specification of the decimal-digit expansion (proof-side companion of
the fuelled natCharsAux). -/
def digitsOf (n : Nat) : List Char :=
  if h : n < 10 then [digitChar n]
  else
    have : n / 10 < n := Nat.div_lt_self (by omega) (by omega)
    digitsOf (n / 10) ++ [digitChar (n % 10)]

theorem natCharsAux_eq : ∀ f n acc, n < f → natCharsAux f n acc = digitsOf n ++ acc := by
  intro f
  induction f with
  | zero => intro n acc h; omega
  | succ f ih =>
    intro n acc h
    by_cases h10 : n < 10
    · rw [natCharsAux, digitsOf]
      simp [h10, Nat.mod_eq_of_lt h10]
    · rw [natCharsAux, digitsOf]
      simp only [h10, if_false, dif_neg]
      rw [ih (n / 10) _ (by omega)]
      simp

theorem natChars_eq (n : Nat) : natChars n = digitsOf n := by
  rw [natChars, natCharsAux_eq (n + 1) n [] (by omega)]
  simp

theorem digitsOf_ne_nil (n : Nat) : digitsOf n ≠ [] := by
  rw [digitsOf]
  split <;> simp

theorem digitsOf_all_dig (n : Nat) : ∀ c ∈ digitsOf n, isDig c = true := by
  induction n using Nat.strong_induction_on with
  | _ n ih =>
    rw [digitsOf]
    split
    · intro c hc
      simp at hc
      subst hc
      exact isDig_digitChar n (by omega)
    · intro c hc
      simp at hc
      rcases hc with hc | hc
      · exact ih (n / 10) (Nat.div_lt_self (by omega) (by omega)) c hc
      · subst hc
        exact isDig_digitChar _ (Nat.mod_lt n (by omega))

theorem digitsOf_shape (n : Nat) :
    ∃ d t, digitsOf n = digitChar d :: t ∧ d < 10 ∧ (1 ≤ n → 1 ≤ d) := by
  induction n using Nat.strong_induction_on with
  | _ n ih =>
    rw [digitsOf]
    split
    · exact ⟨n, [], rfl, by omega, fun h => by omega⟩
    · rename_i h10
      obtain ⟨d, t, hdt, hd, hpos⟩ := ih (n / 10) (Nat.div_lt_self (by omega) (by omega))
      refine ⟨d, t ++ [digitChar (n % 10)], ?_, hd, fun _ => ?_⟩
      · rw [hdt]; simp
      · exact hpos (by omega)

/-- The digit-accumulation step used by pDigits. -/
def digStep (a : Nat) (c : Char) : Nat := 10 * a + dval c

theorem pDigits_append (ds : List Char) :
    ∀ acc rest, (∀ c ∈ ds, isDig c = true) → digitHead rest = false →
      pDigits acc (ds ++ rest) = (List.foldl digStep acc ds, rest) := by
  induction ds with
  | nil =>
    intro acc rest _ hrest
    cases rest with
    | nil => simp [pDigits]
    | cons c r =>
      simp only [digitHead] at hrest
      simp [pDigits, hrest]
  | cons c ds ih =>
    intro acc rest hds hrest
    have hc : isDig c = true := hds c (by simp)
    rw [List.cons_append, pDigits]
    simp only [hc, if_true, if_pos]
    rw [ih _ rest (fun x hx => hds x (by simp [hx])) hrest]
    simp [digStep]

theorem foldl_digitsOf (n : Nat) :
    ∀ acc, List.foldl digStep acc (digitsOf n) = acc * 10 ^ (digitsOf n).length + n := by
  induction n using Nat.strong_induction_on with
  | _ n ih =>
    intro acc
    rw [digitsOf]
    split
    · rename_i h10
      simp [digStep, dval_digitChar n (by omega)]
      ring
    · rename_i h10
      rw [List.foldl_append]
      rw [ih (n / 10) (Nat.div_lt_self (by omega) (by omega)) acc]
      simp only [List.foldl_cons, List.foldl_nil, digStep,
        dval_digitChar (n % 10) (Nat.mod_lt n (by omega))]
      rw [List.length_append, List.length_cons, List.length_nil]
      have hmod := Nat.div_add_mod n 10
      ring_nf
      omega

/-! ## Number-literal roundtrip -/

theorem pDigits_digitsOf (m : Nat) (rest : List Char) (h : digitHead rest = false) :
    pDigits 0 (digitsOf m ++ rest) = (m, rest) := by
  rw [pDigits_append (digitsOf m) 0 rest (digitsOf_all_dig m) h, foldl_digitsOf m 0]
  simp

theorem pAfterInt_comma (neg : Bool) (v : Nat) (t : List Char) :
    pAfterInt neg v (',' :: t) =
      some (Json.num (if neg then -(v : Int) else (v : Int)) true, ',' :: t) := by
  simp [pAfterInt]

theorem pNumBody_digitsOf (neg : Bool) (m : Nat) (t : List Char) :
    pNumBody neg (digitsOf m ++ ',' :: t) =
      some (Json.num (if neg then -(m : Int) else (m : Int)) true, ',' :: t) := by
  have hcomma : digitHead (',' :: t) = false := rfl
  obtain ⟨d, td, hdt, hd, hpos⟩ := digitsOf_shape m
  have hdig := isDig_digitChar d hd
  have hguard : (digitChar d = '0' ∧ digitHead (td ++ ',' :: t) = true) → False := by
    rintro ⟨h0, hh⟩
    have hd0 : d = 0 := by
      have hz : digitChar 0 = '0' := rfl
      have := (digitChar_eq_iff d 0 hd (by omega)).mp (by rw [hz]; exact h0)
      omega
    subst hd0
    have hm : m < 10 := by
      by_contra hm
      have := hpos (by omega)
      omega
    have hone : digitsOf m = [digitChar m] := by rw [digitsOf]; simp [hm]
    rw [hone] at hdt
    have htd : td = [] := by injection hdt with h1 h2; exact h2.symm
    rw [htd] at hh
    simp [hcomma] at hh
  have hsteps : pDigits (dval (digitChar d)) (td ++ ',' :: t) = (m, ',' :: t) := by
    have h0 := pDigits_digitsOf m (',' :: t) hcomma
    rw [hdt] at h0
    rw [List.cons_append, pDigits] at h0
    simpa [hdig] using h0
  rw [hdt, List.cons_append, pNumBody]
  simp only [hdig, if_true, if_pos]
  rw [if_neg (by intro hc; exact hguard ⟨hc.1, hc.2⟩)]
  rw [hsteps]
  exact pAfterInt_comma neg m t

theorem pNum_encInt (i : Int) (t : List Char) :
    pNum (encInt i ++ ',' :: t) = some (Json.num i true, ',' :: t) := by
  by_cases hneg : i < 0
  · rw [encInt, if_pos hneg, natChars_eq, List.cons_append, pNum]
    rw [if_pos rfl, pNumBody_digitsOf true i.natAbs t]
    have habs : -(i.natAbs : Int) = i := by omega
    rw [if_pos rfl, habs]
  · rw [encInt, if_neg hneg, natChars_eq]
    obtain ⟨d, td, hdt, hd, _⟩ := digitsOf_shape i.toNat
    have hne : digitChar d ≠ '-' := by
      intro h
      have h2 := (char_eq_iff_toNat _ _).mp h
      rw [toNat_digitChar d hd] at h2
      have h45 : ('-' : Char).toNat = 45 := rfl
      omega
    rw [hdt, List.cons_append, pNum, if_neg hne, ← List.cons_append, ← hdt]
    rw [pNumBody_digitsOf false i.toNat t]
    have htn : (i.toNat : Int) = i := by omega
    rw [if_neg (by simp), htn]

/-! ## String-literal roundtrip -/

theorem hexVal_hexDigit (a : Nat) (h : a < 16) : hexVal (hexDigit a) = some a := by
  interval_cases a <;> rfl

theorem pStrAux_step_u (f : Nat) (a b c1 d : Char) (va vb vc vd : Nat) (t : List Char)
    (ha : hexVal a = some va) (hb : hexVal b = some vb) (hc : hexVal c1 = some vc)
    (hd : hexVal d = some vd)
    (hlow : ((va * 16 + vb) * 16 + vc) * 16 + vd < 0xD800) :
    pStrAux (f + 1) ('\\' :: 'u' :: a :: b :: c1 :: d :: t) =
      (pStrAux f t).map (fun p =>
        (Char.ofNat (((va * 16 + vb) * 16 + vc) * 16 + vd) :: p.1, p.2)) := by
  rw [pStrAux]
  rw [if_neg (by decide), if_pos (by decide)]
  simp only [hex4, ha, hb, hc, hd]
  rw [if_neg (by decide), if_neg (by decide), if_neg (by decide), if_neg (by decide),
    if_neg (by decide), if_neg (by decide), if_neg (by decide), if_neg (by decide),
    if_pos (by decide)]
  rw [if_neg (by omega)]

theorem pStrAux_escChar (c : Char) (f : Nat) (t : List Char) :
    pStrAux (f + 1) (escChar c ++ t) = (pStrAux f t).map (fun p => (c :: p.1, p.2)) := by
  by_cases h1 : c = '"'
  · subst h1; rfl
  by_cases h2 : c = '\\'
  · subst h2; rfl
  by_cases h3 : c = '\n'
  · subst h3; rfl
  by_cases h4 : c = '\r'
  · subst h4; rfl
  by_cases h5 : c = '\t'
  · subst h5; rfl
  by_cases h6 : c.toNat < 0x20 ∨ c = '<' ∨ c = '>' ∨ c = '&'
  · have hlt : c.toNat < 256 := by
      rcases h6 with h | h | h | h
      · omega
      all_goals (subst h; decide)
    have hesc : escChar c =
        ['\\', 'u', '0', '0', hexDigit (c.toNat / 16), hexDigit (c.toNat % 16)] := by
      rw [escChar, if_neg h1, if_neg h2, if_neg h3, if_neg h4, if_neg h5, if_pos h6]
    have hv0 : hexVal '0' = some 0 := rfl
    have hhi := hexVal_hexDigit (c.toNat / 16) (by omega)
    have hlo := hexVal_hexDigit (c.toNat % 16) (by omega)
    rw [hesc]
    simp only [List.cons_append, List.nil_append]
    rw [pStrAux_step_u f '0' '0' (hexDigit (c.toNat / 16)) (hexDigit (c.toNat % 16))
      0 0 (c.toNat / 16) (c.toNat % 16) t hv0 hv0 hhi hlo (by omega)]
    rw [show (((0 : Nat) * 16 + 0) * 16 + c.toNat / 16) * 16 + c.toNat % 16 = c.toNat by
      omega]
    rw [Char.ofNat_toNat]
  by_cases h7 : c.toNat = 0x2028 ∨ c.toNat = 0x2029
  · have hesc : escChar c = ['\\', 'u', '2', '0', '2', hexDigit (c.toNat % 16)] := by
      rw [escChar, if_neg h1, if_neg h2, if_neg h3, if_neg h4, if_neg h5, if_neg h6,
        if_pos h7]
    have hv2 : hexVal '2' = some 2 := rfl
    have hv0 : hexVal '0' = some 0 := rfl
    have hlo := hexVal_hexDigit (c.toNat % 16) (by omega)
    rw [hesc]
    simp only [List.cons_append, List.nil_append]
    rw [pStrAux_step_u f '2' '0' '2' (hexDigit (c.toNat % 16))
      2 0 2 (c.toNat % 16) t hv2 hv0 hv2 hlo (by omega)]
    rw [show (((2 : Nat) * 16 + 0) * 16 + 2) * 16 + c.toNat % 16 = c.toNat by omega]
    rw [Char.ofNat_toNat]
  · have hesc : escChar c = [c] := by
      rw [escChar, if_neg h1, if_neg h2, if_neg h3, if_neg h4, if_neg h5, if_neg h6,
        if_neg h7]
    have hge : ¬ c.toNat < 0x20 := by
      intro h
      exact h6 (Or.inl h)
    rw [hesc]
    simp only [List.cons_append, List.nil_append]
    rw [pStrAux.eq_def]
    simp only [if_neg h1, if_neg h2, if_neg hge]

theorem pStrAux_escBody (cs : List Char) :
    ∀ f rest, cs.length < f → pStrAux f (escBody cs ++ rest) = some (cs, rest) := by
  induction cs with
  | nil =>
    intro f rest h
    cases f with
    | zero => omega
    | succ f => simp [escBody, pStrAux]
  | cons c cs ih =>
    intro f rest h
    cases f with
    | zero => omega
    | succ f =>
      rw [escBody, List.append_assoc, pStrAux_escChar c f (escBody cs ++ rest)]
      rw [ih f rest (by simp at h; omega)]
      rfl

theorem escBody_length (cs : List Char) : cs.length ≤ (escBody cs).length := by
  induction cs with
  | nil => simp [escBody]
  | cons c cs ih =>
    rw [escBody, List.length_append, List.length_cons]
    have hpos : 1 ≤ (escChar c).length := by
      rw [escChar]
      repeat' split
      all_goals simp
    omega

theorem pStr_escBody (cs rest : List Char) : pStr (escBody cs ++ rest) = some (cs, rest) := by
  rw [pStr]
  apply pStrAux_escBody
  have h1 := escBody_length cs
  simp [List.length_append]
  omega

/-! ## Value- and object-level roundtrip -/

theorem pVal_escStr (f : Nat) (s : String) (rest : List Char) :
    pVal (f + 1) ('"' :: (escBody s.data ++ rest)) = some (Json.str s, rest) := by
  rw [pVal]
  rw [skipWs_cons '"' (escBody s.data ++ rest) (by decide)]
  simp only []
  rw [if_pos trivial]
  rw [show pStr (escBody s.data ++ rest) = some (s.data, rest) from pStr_escBody s.data rest]
  rfl

theorem pVal_num_head (f : Nat) (c : Char) (r : List Char)
    (h : c = '-' ∨ isDig c = true) :
    pVal (f + 1) (c :: r) = pNum (c :: r) := by
  have htn : c.toNat = 45 ∨ (48 ≤ c.toNat ∧ c.toNat ≤ 57) := by
    rcases h with h | h
    · left; rw [h]; rfl
    · right; simp [isDig] at h; omega
  have hne : ∀ n : Nat, c.toNat ≠ n → ∀ d : Char, d.toNat = n → c ≠ d := by
    intro n hn d hd he
    rw [char_eq_iff_toNat, hd] at he
    exact hn he
  have hws : isWs c = false := by
    simp only [isWs, Bool.or_eq_false_iff]
    refine ⟨⟨⟨?_, ?_⟩, ?_⟩, ?_⟩ <;>
      · simp only [decide_eq_false_iff_not]
        intro hc
        rw [char_eq_iff_toNat] at hc
        revert hc
        simp
        omega
  rw [pVal]
  rw [skipWs_cons c r hws]
  simp only []
  rw [if_neg (hne 34 (by omega) '"' rfl), if_neg (hne 123 (by omega) '\x7b' rfl),
    if_neg (hne 91 (by omega) '[' rfl), if_neg (hne 116 (by omega) 't' rfl),
    if_neg (hne 102 (by omega) 'f' rfl), if_neg (hne 110 (by omega) 'n' rfl)]
  rw [if_pos h]

theorem pVal_encInt (f : Nat) (i : Int) (t : List Char) :
    pVal (f + 1) (encInt i ++ ',' :: t) = some (Json.num i true, ',' :: t) := by
  have hhead : ∃ c r, encInt i ++ ',' :: t = c :: r ∧ (c = '-' ∨ isDig c = true) := by
    by_cases hneg : i < 0
    · exact ⟨'-', natChars i.natAbs ++ ',' :: t,
        by rw [encInt, if_pos hneg, List.cons_append], Or.inl rfl⟩
    · obtain ⟨d, td, hdt, hd, _⟩ := digitsOf_shape i.toNat
      refine ⟨digitChar d, td ++ ',' :: t, ?_, Or.inr (isDig_digitChar d hd)⟩
      rw [encInt, if_neg hneg, natChars_eq, hdt, List.cons_append]
  obtain ⟨c, r, hcr, hc⟩ := hhead
  rw [hcr, pVal_num_head f c r hc, ← hcr, pNum_encInt i t]

theorem pMembers_more (f : Nat) (k : List Char) (body : List Char) (v : Json)
    (r3 : List Char) (h : pVal f body = some (v, ',' :: r3)) :
    pMembers (f + 1) ('"' :: (escBody k ++ ':' :: body)) =
      (pMembers f r3).map (fun p => ((String.mk k, v) :: p.1, p.2)) := by
  rw [pMembers]
  rw [skipWs_cons '"' (escBody k ++ ':' :: body) (by decide)]
  simp only []
  rw [show pStr (escBody k ++ ':' :: body) = some (k, ':' :: body) from
    pStr_escBody k (':' :: body)]
  simp only []
  rw [skipWs_cons ':' body (by decide)]
  simp only [h]
  rw [skipWs_cons ',' r3 (by decide)]
  rfl

theorem pMembers_last (f : Nat) (k : List Char) (body : List Char) (v : Json)
    (r3 : List Char) (h : pVal f body = some (v, '\x7d' :: r3)) :
    pMembers (f + 1) ('"' :: (escBody k ++ ':' :: body)) =
      some ([(String.mk k, v)], r3) := by
  rw [pMembers]
  rw [skipWs_cons '"' (escBody k ++ ':' :: body) (by decide)]
  simp only []
  rw [show pStr (escBody k ++ ':' :: body) = some (k, ':' :: body) from
    pStr_escBody k (':' :: body)]
  simp only []
  rw [skipWs_cons ':' body (by decide)]
  simp only [h]
  rw [skipWs_cons '\x7d' r3 (by decide)]
  rfl

theorem data_mk (cs : List Char) : (String.mk cs).data = cs := rfl

theorem pVal_encL (f : Nat) (l : Listener) :
    pVal (f + 5) (encodeListener l).data =
      some (Json.obj [("address", Json.str l.Address), ("fd", Json.num l.FD true),
        ("filename", Json.str l.Filename)], []) := by
  simp only [encodeListener, data_mk, escStr, List.cons_append, List.append_assoc]
  rw [pVal]
  rw [skipWs_cons '\x7b' _ (by decide)]
  simp only []
  rw [if_pos trivial]
  rw [skipWs_cons '"' _ (by decide)]
  simp only []
  rw [if_neg (by decide)]
  rw [pMembers_more (f + 3) ("address".data) _ (Json.str l.Address) _
    (pVal_escStr (f + 2) l.Address _)]
  rw [pMembers_more (f + 2) ("fd".data) _ (Json.num l.FD true) _
    (pVal_encInt (f + 1) l.FD _)]
  rw [pMembers_last (f + 1) ("filename".data) _ (Json.str l.Filename) []
    (pVal_escStr f l.Filename _)]
  rfl

theorem parseJson_encode (l : Listener) :
    parseJson (encodeListener l) =
      some (Json.obj [("address", Json.str l.Address), ("fd", Json.num l.FD true),
        ("filename", Json.str l.Filename)]) := by
  have hlen : 4 ≤ (encodeListener l).length := by
    show 4 ≤ (encodeListener l).data.length
    simp only [encodeListener, data_mk, escStr, List.cons_append, List.append_assoc]
    simp [List.length_append]
    omega
  obtain ⟨g, hg⟩ : ∃ g, (encodeListener l).length + 1 = g + 5 :=
    ⟨(encodeListener l).length - 4, by omega⟩
  rw [parseJson, hg, pVal_encL g l]
  rfl

theorem unmarshal_encL (l : Listener) :
    unmarshalListener (Json.obj [("address", Json.str l.Address),
      ("fd", Json.num l.FD true), ("filename", Json.str l.Filename)]) = Except.ok l := by
  have h1 : applyField Listener.zero "address" (Json.str l.Address) =
      Except.ok ⟨l.Address, 0, ""⟩ := rfl
  have h2 : applyField ⟨l.Address, 0, ""⟩ "fd" (Json.num l.FD true) =
      Except.ok ⟨l.Address, l.FD, ""⟩ := rfl
  have h3 : applyField ⟨l.Address, l.FD, ""⟩ "filename" (Json.str l.Filename) =
      Except.ok ⟨l.Address, l.FD, l.Filename⟩ := rfl
  rw [unmarshalListener]
  simp only [applyFields, h1, h2, h3]

theorem decode_encode (l : Listener) :
    decodeListener (encodeListener l) = Except.ok l := by
  rw [decodeListener, parseJson_encode l]
  exact unmarshal_encL l

/-! ## Concrete fixtures shared by the claim witnesses -/

/-- A ForkChild world in which every OS interaction succeeds. -/
def okWorld : ForkWorld :=
  { listenerFile := Except.ok ⟨"sock"⟩, stdin := ⟨"dev-stdin"⟩,
    stdout := ⟨"dev-stdout"⟩, stderr := ⟨"dev-stderr"⟩,
    environ := ["PATH=/bin"], executable := Except.ok "/srv/app",
    args := ["/srv/app"], dirOf := fun _ => "/srv",
    startProcess := fun _ => Except.ok 42 }

/-- The spawn request ForkChild hands to os.StartProcess under okWorld. -/
def okReq : SpawnRequest :=
  { path := "/srv/app", args := ["/srv/app"], dir := "/srv",
    env := ["PATH=/bin",
      "LISTENER=" ++ encodeListener { Address := ":8080", FD := 3, Filename := "sock" }],
    files := [⟨"dev-stdin"⟩, ⟨"dev-stdout"⟩, ⟨"dev-stderr"⟩, ⟨"sock"⟩] }

/-- Loop context over okWorld. -/
def okCtx : RunCtx :=
  { address := ":8080", world := okWorld, waitTime := 2, shutdownRes := none }

/-- A ForkChild world in which GetListenerFile fails, so ForkChild fails. -/
def failWorld : ForkWorld :=
  { okWorld with listenerFile := Except.error "nil NetListener" }

/-- Loop context over failWorld. -/
def failCtx : RunCtx := { okCtx with world := failWorld }

/-! ## The claims -/

/-- C1: for every LISTENER value that is absent, malformed JSON, or decodes
to a descriptor whose address mismatches the configured one,
CreateOrImportListener does not return an error: the import failure falls
through to CreateListener and, the bind succeeding, the freshly bound
listener is installed. -/
theorem C1_createOrImport_falls_back (address env : String)
    (fileListener : Int → String → Except String Handle)
    (bind : String → Except String Handle) (h : Handle)
    (himp : env = "" ∨ (∃ m, decodeListener env = Except.error m) ∨
      (∃ l, decodeListener env = Except.ok l ∧ l.Address ≠ effAddr address))
    (hbind : bind (effAddr address) = Except.ok h) :
    CreateOrImportListener address env fileListener bind = ImportResult.ok h := by
  have himp2 : ∃ m, ImportListener address env fileListener = ImportResult.err m := by
    by_cases henv : env = ""
    · exact ⟨_, by rw [ImportListener, if_pos henv]⟩
    · rcases himp with h1 | ⟨m, hm⟩ | ⟨l, hl, hne⟩
      · exact absurd h1 henv
      · exact ⟨m, by rw [ImportListener, if_neg henv, hm]⟩
      · refine ⟨"unable to find listener for " ++ effAddr address, ?_⟩
        rw [ImportListener, if_neg henv, hl]
        simp only []
        rw [if_pos hne]
  obtain ⟨m, hm⟩ := himp2
  rw [CreateOrImportListener, hm]
  simp only []
  rw [CreateListener, hbind]

/-- Witness for C1 at a concrete input: LISTENER unset, bind succeeding. -/
theorem C1_witness :
    CreateOrImportListener ":8080" "" (fun _ _ => Except.error "unused")
      (fun _ => Except.ok 7) = ImportResult.ok 7 :=
  C1_createOrImport_falls_back ":8080" "" (fun _ _ => Except.error "unused")
    (fun _ => Except.ok 7) 7 (Or.inl rfl) rfl

/-- C2 counterexample: on a non-nil subordinate error with the fork
succeeding, the loop iteration is NOT identical to the SIGHUP iteration —
the SIGHUP branch clears the Subordinate reference before returning, the
error branch leaves it set. -/
theorem C2_counterexample :
    runStep okCtx ⟨some 0⟩ (Event.subErr (some "worker failure")) ≠
      runStep okCtx ⟨some 0⟩ (Event.signal Sig.hup) := by
  decide

/-- C2 (amended): on a non-nil subordinate error the loop performs the same
action sequence as for SIGHUP — sleep WaitTime, fork, and on fork success
shut down with the bounded timeout and return its result — and the only
difference is that the Subordinate reference is not cleared: the result
equals the SIGHUP result with the state left unchanged. -/
theorem C2_subErr_is_hup_without_clearing (c : RunCtx) (st : LoopState) (m : String) :
    runStep c st (Event.subErr (some m)) =
      { runStep c st (Event.signal Sig.hup) with state := st } := by
  cases hf : forkFails c <;> simp [runStep, hf]

/-- C3: on SIGINT or SIGQUIT the control loop shuts down the embedded
server with the bounded timeout and returns its result, and never invokes
ForkChild on that path. -/
theorem C3_int_quit_shutdown_no_fork (c : RunCtx) (st : LoopState) :
    runStep c st (Event.signal Sig.intr) =
      ⟨[Action.shutdown 5], st, Outcome.ret c.shutdownRes⟩ ∧
    runStep c st (Event.signal Sig.quit) =
      ⟨[Action.shutdown 5], st, Outcome.ret c.shutdownRes⟩ ∧
    Action.forkAttempt ∉ (runStep c st (Event.signal Sig.intr)).acts ∧
    Action.forkAttempt ∉ (runStep c st (Event.signal Sig.quit)).acts := by
  refine ⟨rfl, rfl, ?_, ?_⟩ <;> simp [runStep]

/-- C4: whenever the LISTENER value decodes to a descriptor whose address
differs from the (defaulted) configured address, ImportListener returns
the address-mismatch error — in particular it never installs the
inherited listener. -/
theorem C4_import_address_guard (address env : String)
    (fileListener : Int → String → Except String Handle) (l : Listener)
    (hdec : decodeListener env = Except.ok l) (hne : l.Address ≠ effAddr address) :
    ImportListener address env fileListener =
      ImportResult.err ("unable to find listener for " ++ effAddr address) := by
  have henv : env ≠ "" := by
    intro h
    rw [h] at hdec
    have hz : decodeListener "" = Except.error "json: syntax error" := rfl
    rw [hz] at hdec
    exact Except.noConfusion hdec
  rw [ImportListener, if_neg henv, hdec]
  simp only []
  rw [if_pos hne]

/-- Witness for C4 at a concrete mismatched descriptor. -/
theorem C4_witness :
    ImportListener ":8080" "\x7b\"address\":\":9999\",\"fd\":3,\"filename\":\"f\"\x7d"
      (fun _ _ => Except.ok 5) =
      ImportResult.err ("unable to find listener for " ++ effAddr ":8080") :=
  C4_import_address_guard ":8080"
    "\x7b\"address\":\":9999\",\"fd\":3,\"filename\":\"f\"\x7d"
    (fun _ _ => Except.ok 5) ⟨":9999", 3, "f"⟩ rfl (by decide)

/-- C5 counterexample: the text containing only an empty object is
parseable but misses every required field, yet decoding succeeds with the
zero values instead of failing with MalformedDescriptor. -/
theorem C5_counterexample :
    decodeListener "\x7b\x7d" = Except.ok ⟨"", 0, ""⟩ := rfl

/-- C5 (amended): decoding fails with the MalformedDescriptor error
whenever the text is not parseable structured data; a parseable text with
missing fields instead decodes to the fields' zero values. -/
theorem C5_decode_fails_only_unparseable (s : String) (h : parseJson s = none) :
    decodeListener s = Except.error "json: syntax error" := by
  rw [decodeListener, h]

/-- Witness for the amended C5 at a concrete unparseable input. -/
theorem C5_witness :
    decodeListener "not json" = Except.error "json: syntax error" :=
  C5_decode_fails_only_unparseable "not json" rfl

/-- C6: a successful ForkChild passes os.StartProcess the file table
[stdin, stdout, stderr, listener file] in exactly that order, and the
child environment is the parent environment plus the LISTENER variable
holding the encoded descriptor with fd = 3 and the configured
(defaulted) address. -/
theorem C6_forkchild_request (address : String) (w : ForkWorld) (lf : OsFile)
    (pid : Nat) (req : SpawnRequest) (hlf : w.listenerFile = Except.ok lf)
    (hok : ForkChild address w = Except.ok (pid, req)) :
    req.files = [w.stdin, w.stdout, w.stderr, lf] ∧
    req.env = w.environ ++ ["LISTENER=" ++
      encodeListener { Address := effAddr address, FD := 3, Filename := lf.name }] := by
  rw [ForkChild, hlf] at hok
  simp only [] at hok
  split at hok
  · exact absurd hok (by simp)
  · split at hok
    · exact absurd hok (by simp)
    · simp only [Except.ok.injEq, Prod.mk.injEq] at hok
      obtain ⟨_, hreq⟩ := hok
      subst hreq
      exact ⟨rfl, rfl⟩

/-- Witness for C6 under the concrete all-success world. -/
theorem C6_witness :
    okReq.files = [okWorld.stdin, okWorld.stdout, okWorld.stderr, OsFile.mk "sock"] ∧
    okReq.env = okWorld.environ ++ ["LISTENER=" ++
      encodeListener ⟨effAddr ":8080", 3, (OsFile.mk "sock").name⟩] :=
  C6_forkchild_request ":8080" okWorld ⟨"sock"⟩ 42 okReq rfl rfl

/-- C7: on SIGUSR2 the loop sleeps WaitTime and attempts the fork, then
continues in the current generation with its state unchanged, never
shutting down and never returning, whatever the fork outcome. -/
theorem C7_usr2_keeps_serving (c : RunCtx) (st : LoopState) :
    runStep c st (Event.signal Sig.usr2) =
      ⟨[Action.sleepWait c.waitTime, Action.forkAttempt], st, Outcome.next⟩ ∧
    (∀ n, Action.shutdown n ∉ (runStep c st (Event.signal Sig.usr2)).acts) := by
  have h : runStep c st (Event.signal Sig.usr2) =
      ⟨[Action.sleepWait c.waitTime, Action.forkAttempt], st, Outcome.next⟩ := by
    cases hf : forkFails c <;> simp [runStep, hf]
  refine ⟨h, ?_⟩
  rw [h]
  simp

/-- C8: when ForkChild fails, each restart trigger — SIGHUP, SIGUSR2 and a
non-nil subordinate error — leaves the loop continuing in the current
generation with its state unchanged, after exactly one sleep-and-fork
attempt and no shutdown. -/
theorem C8_fork_failure_nonfatal (c : RunCtx) (st : LoopState) (em m : String)
    (hfork : ForkChild c.address c.world = Except.error em) :
    runStep c st (Event.signal Sig.hup) =
      ⟨[Action.sleepWait c.waitTime, Action.forkAttempt], st, Outcome.next⟩ ∧
    runStep c st (Event.signal Sig.usr2) =
      ⟨[Action.sleepWait c.waitTime, Action.forkAttempt], st, Outcome.next⟩ ∧
    runStep c st (Event.subErr (some m)) =
      ⟨[Action.sleepWait c.waitTime, Action.forkAttempt], st, Outcome.next⟩ := by
  have hf : forkFails c = true := by simp [forkFails, hfork]
  refine ⟨?_, ?_, ?_⟩ <;> simp [runStep, hf]

/-- Witness for C8 under the concrete fork-failing world. -/
theorem C8_witness :
    runStep failCtx ⟨some 1⟩ (Event.signal Sig.hup) =
      ⟨[Action.sleepWait 2, Action.forkAttempt], ⟨some 1⟩, Outcome.next⟩ ∧
    runStep failCtx ⟨some 1⟩ (Event.signal Sig.usr2) =
      ⟨[Action.sleepWait 2, Action.forkAttempt], ⟨some 1⟩, Outcome.next⟩ ∧
    runStep failCtx ⟨some 1⟩ (Event.subErr (some "boom")) =
      ⟨[Action.sleepWait 2, Action.forkAttempt], ⟨some 1⟩, Outcome.next⟩ :=
  C8_fork_failure_nonfatal failCtx ⟨some 1⟩ "nil NetListener" "boom" rfl

/-- C9: for every descriptor — any address string, integer fd and filename
string — decoding the ForkChild-side JSON encoding yields the descriptor
back unchanged. -/
theorem C9_descriptor_roundtrip (l : Listener) :
    decodeListener (encodeListener l) = Except.ok l :=
  decode_encode l

/-- C10: with a LISTENER value that is valid JSON, matches the configured
address and carries a negative fd, os.NewFile yields nil and the error
branch evaluates err.Error() on the nil unmarshalling error — a nil
interface method call, so ImportListener panics instead of returning an
error.  This is the code bug the claim's safety property exposes. -/
theorem C10_import_negative_fd_panics (address env : String)
    (fileListener : Int → String → Except String Handle) (l : Listener)
    (hdec : decodeListener env = Except.ok l) (haddr : l.Address = effAddr address)
    (hfd : l.FD < 0) :
    ImportListener address env fileListener = ImportResult.panicked := by
  have henv : env ≠ "" := by
    intro h
    rw [h] at hdec
    have hz : decodeListener "" = Except.error "json: syntax error" := rfl
    rw [hz] at hdec
    exact Except.noConfusion hdec
  rw [ImportListener, if_neg henv, hdec]
  simp only []
  rw [if_neg (by simp [haddr]), if_pos hfd]

/-- Witness for C10 at the concrete failing input. -/
theorem C10_witness :
    ImportListener ":8080" "\x7b\"address\":\":8080\",\"fd\":-1,\"filename\":\"x\"\x7d"
      (fun _ _ => Except.ok 5) = ImportResult.panicked :=
  C10_import_negative_fd_panics ":8080"
    "\x7b\"address\":\":8080\",\"fd\":-1,\"filename\":\"x\"\x7d"
    (fun _ _ => Except.ok 5) ⟨":8080", -1, "x"⟩ rfl rfl (by decide)

end GoPm
